import Mathlib

/-!
Shallow embedding of the hub-nexus-cortex orchestrator core, with proofs
checking the natural-language specification against the code.

Embedded modules:
  * `core/heavy_gate.py`    — heavy-model classification
  * `core/consensus.py`     — consensus vote pipeline (deadline phases, outcome)
  * `core/model_manager.py` — LLM adapter `generate` (retry loop, sentinels)
  * `core/mome_router.py`   — query classification, fusion weights, weighted RRF
  * `core/memory/memory_fusion.py` and `devB/core/memory/memory_fusion.py`
                            — score normalization

Conventions: Python floats become `ℚ` (all constants in the code are exact
decimals); Python dicts with insertion order become association lists; the
nondeterministic parts (HTTP calls, the event loop) become explicit oracle
parameters.  `Char.toLower` is ASCII-only, matching Python `.lower()` on the
ASCII-cased inputs used throughout.
-/

set_option autoImplicit false

namespace HubNexus

/-! # Definitions -/

/-! ## String primitives -/

/-- `startsList needle hay = true` iff `needle` is an initial segment of
`hay`; embeds Python `str.startswith` on char lists. -/
def startsList : List Char → List Char → Bool
  | [], _ => true
  | _ :: _, [] => false
  | a :: as, b :: bs => a == b && startsList as bs

/-- `containsChars needle hay = true` iff `needle` occurs contiguously in
`hay`; embeds the Python substring test `needle in hay`. -/
def containsChars (needle : List Char) : List Char → Bool
  | [] => startsList needle []
  | b :: bs => startsList needle (b :: bs) || containsChars needle bs

/-- Python `needle in hay` on strings. -/
def strContains (hay needle : String) : Bool :=
  containsChars needle.toList hay.toList

/-- Python `s.startswith(p)`. -/
def startsWithB (s p : String) : Bool :=
  startsList p.toList s.toList

/-- Python `s.lower()` (ASCII range, via `Char.toLower`). -/
def lowerS (s : String) : String :=
  ⟨s.data.map Char.toLower⟩

/-! ## core/heavy_gate.py — heavy-model classification -/

/-- `HEAVY_HINTS = ("32b", "70b", "72b", "qwen32b", "mixtral-8x7b")`. -/
def HEAVY_HINTS : List String :=
  ["32b", "70b", "72b", "qwen32b", "mixtral-8x7b"]

/-- `heavy_gate.is_heavy_model`: any hint occurring in the lowercased name. -/
def is_heavy_model (name : String) : Bool :=
  HEAVY_HINTS.any (fun h => strContains (lowerS name) h)

/-- `consensus._is_heavy`: `"32b" in m or "qwen32b" in m` on the lowercased
model id. -/
def _is_heavy (model : String) : Bool :=
  strContains (lowerS model) "32b" || strContains (lowerS model) "qwen32b"

/-! ## core/mome_router.py — weighted reciprocal-rank fusion -/

/-- The fields of a result dict that the fusion key logic reads.  `none`
models an absent key; `some ""` models a present-but-empty value (Python
distinguishes the two under `dict.get` but not under `or`-chaining). -/
structure Doc where
  id : Option String
  doc_id : Option String
  text : Option String
  deriving DecidableEq

/-- `weights.get(expert, 0.1)` over the insertion-ordered weights dict. -/
def weightOf : List (String × ℚ) → String → ℚ
  | [], _ => 1 / 10
  | (k, v) :: rest, e => if k = e then v else weightOf rest e

/-- `doc.get("id", f"{expert}_{rank}")`. -/
def docKey (expert : String) (rank : ℕ) (d : Doc) : String :=
  match d.id with
  | some s => s
  | none => expert ++ "_" ++ toString rank

/-- `scores[doc_id] += q` on a defaultdict kept as an insertion-ordered
association list: add into an existing entry, else append at the end. -/
def addScore (scores : List (String × ℚ)) (key : String) (q : ℚ) :
    List (String × ℚ) :=
  match scores with
  | [] => [(key, q)]
  | (k, v) :: rest =>
    if k = key then (k, v + q) :: rest else (k, v) :: addScore rest key q

/-- The inner loop of `_reciprocal_rank_fusion` over one expert's ranked
results (`rank` starts at 1): each doc contributes `w · 1/(k_param + rank)`
to its key. -/
def addBucket (expert : String) (w : ℚ) (kParam : ℕ) :
    List Doc → ℕ → List (String × ℚ) → List (String × ℚ)
  | [], _, scores => scores
  | d :: ds, rank, scores =>
    addBucket expert w kParam ds (rank + 1)
      (addScore scores (docKey expert rank d) (w * (1 / ((kParam : ℚ) + rank))))

/-- The accumulated `scores` dict of `_reciprocal_rank_fusion`, in insertion
order (first appearance first). -/
def fusionScores (buckets : List (String × List Doc))
    (weights : List (String × ℚ)) (kParam : ℕ) : List (String × ℚ) :=
  buckets.foldl
    (fun sc b => addBucket b.1 (weightOf weights b.1) kParam b.2 1 sc) []

/-- Score lookup in the accumulated dict (0 for an absent key, matching the
defaultdict's notional default). -/
def getScore : List (String × ℚ) → String → ℚ
  | [], _ => 0
  | (k, v) :: rest, key => if k = key then v else getScore rest key

/-- Reference form of one bucket's contribution to a given key: the sum of
`w · 1/(kParam + rank)` over the docs of the bucket whose key matches,
ranks counted from `rank`. -/
def contribFrom (expert : String) (w : ℚ) (kParam : ℕ) (key : String) :
    List Doc → ℕ → ℚ
  | [], _ => 0
  | d :: ds, rank =>
    (if docKey expert rank d = key then w * (1 / ((kParam : ℚ) + rank)) else 0)
      + contribFrom expert w kParam key ds (rank + 1)

/-- Stable insert for descending order: `x` goes after every element whose
score is ≥ its own. -/
def insertDesc (x : String × ℚ) : List (String × ℚ) → List (String × ℚ)
  | [] => [x]
  | y :: ys => if y.2 ≥ x.2 then y :: insertDesc x ys else x :: y :: ys

/-- Stable sort by descending score — extensionally equal to Python's
(stable) `sorted(..., key=score, reverse=True)`. -/
def stableSortDesc (l : List (String × ℚ)) : List (String × ℚ) :=
  l.foldl (fun acc x => insertDesc x acc) []

/-- `_reciprocal_rank_fusion` restricted to the data the claims are about:
the `(doc-key, final_score)` pairs in output order.  (The Python function
additionally carries, per key, the first doc dict seen for that key.) -/
def _reciprocal_rank_fusion (buckets : List (String × List Doc))
    (weights : List (String × ℚ)) (kParam : ℕ) : List (String × ℚ) :=
  stableSortDesc (fusionScores buckets weights kParam)

/-- The output ranking: doc keys in output order. -/
def fusionRanking (buckets : List (String × List Doc))
    (weights : List (String × ℚ)) (kParam : ℕ) : List String :=
  (_reciprocal_rank_fusion buckets weights kParam).map Prod.fst

/-- Modelled from the spec (§4.4): the doc-id chain `id`, else `doc-id`,
else `text`, with Python truthiness (empty strings fall through).  In the
source this chain appears only in `memory_fusion.rrf_merge`; it is declared
here to compare the spec's doc-id rule with `_reciprocal_rank_fusion`'s. -/
def specDocKey (d : Doc) : Option String :=
  match d.id with
  | some s => if s ≠ "" then some s else
      match d.doc_id with
      | some t => if t ≠ "" then some t else d.text
      | none => d.text
  | none =>
    match d.doc_id with
    | some t => if t ≠ "" then some t else d.text
    | none => d.text

/-- A result dict carrying only an `id` field. -/
def docOfId (s : String) : Doc := ⟨some s, none, none⟩

/-- The spec's RRF golden input: buckets `{lex:[d1,d2,d3], sem:[d3,d1,d4]}`. -/
def goldenBuckets : List (String × List Doc) :=
  [("lex", [docOfId "d1", docOfId "d2", docOfId "d3"]),
   ("sem", [docOfId "d3", docOfId "d1", docOfId "d4"])]

/-- The spec's RRF golden weights `{lex:0.5, sem:0.5}`. -/
def goldenWeights : List (String × ℚ) :=
  [("lex", 1/2), ("sem", 1/2)]

/-! ## Score normalization -/

/-- Python `min(xs)` for nonempty `xs` (0 on `[]`, unreachable). -/
def listMin : List ℚ → ℚ
  | [] => 0
  | x :: xs => xs.foldl min x

/-- Python `max(xs)` for nonempty `xs` (0 on `[]`, unreachable). -/
def listMax : List ℚ → ℚ
  | [] => 0
  | x :: xs => xs.foldl max x

/-- `devB/core/memory/memory_fusion._minmax`: min-max normalization with a
uniform 0.5 fallback when `max − min < 1e-9`. -/
def _minmax (xs : List ℚ) : List ℚ :=
  if xs = [] then []
  else
    let mn := listMin xs
    let mx := listMax xs
    if mx - mn < 1 / 1000000000 then xs.map (fun _ => 1 / 2)
    else xs.map (fun x => (x - mn) / (mx - mn))

/-- `core/memory/memory_fusion.normalize_scores`, on the extracted score
values: divide by the max score, substituting 1.0 when the max is falsy
(i.e. zero).  There is no min-max step and no 0.5 branch. -/
def normalize_scores (scores : List ℚ) : List ℚ :=
  match scores with
  | [] => []
  | _ :: _ =>
    let mx := listMax scores
    let mxs := if mx = 0 then 1 else mx
    scores.map (fun s => s / mxs)

/-! ## core/mome_router.py — query classification and weight table -/

def temporal_keywords : List String :=
  ["récent", "dernier", "nouveau", "aujourd\x27hui", "2024", "2025"]

def factual_keywords : List String :=
  ["qui est", "qu\x27est-ce", "définition", "combien", "quand"]

def conceptual_keywords : List String :=
  ["pourquoi", "comment", "expliquer", "concept", "principe"]

/-- `_detect_query_type`: fixed-order keyword tests on the lowercased
query. -/
def _detect_query_type (query : String) : String :=
  let ql := lowerS query
  if temporal_keywords.any (fun kw => strContains ql kw) then "recent"
  else if factual_keywords.any (fun kw => strContains ql kw) then "factual"
  else if conceptual_keywords.any (fun kw => strContains ql kw) then "conceptual"
  else "default"

/-- `FUSION_WEIGHTS`: the fixed per-class weight rows. -/
def FUSION_WEIGHTS : List (String × List (String × ℚ)) :=
  [("factual",
    [("lexical", 4/10), ("semantic", 3/10), ("temporal", 2/10), ("graph", 1/10)]),
   ("conceptual",
    [("semantic", 5/10), ("lexical", 2/10), ("temporal", 15/100), ("graph", 15/100)]),
   ("recent",
    [("temporal", 5/10), ("lexical", 25/100), ("semantic", 2/10), ("graph", 5/100)]),
   ("default",
    [("semantic", 35/100), ("lexical", 35/100), ("temporal", 2/10), ("graph", 1/10)])]

/-- Dict lookup in `FUSION_WEIGHTS`. -/
def fusionRow : List (String × List (String × ℚ)) → String → Option (List (String × ℚ))
  | [], _ => none
  | (k, v) :: rest, key => if k = key then some v else fusionRow rest key

/-- The weights `run_mome` passes to the fusion:
`FUSION_WEIGHTS.get(query_type, FUSION_WEIGHTS["default"])`. -/
def runMomeWeights (query : String) : List (String × ℚ) :=
  match fusionRow FUSION_WEIGHTS (_detect_query_type query) with
  | some row => row
  | none =>
    match fusionRow FUSION_WEIGHTS "default" with
    | some row => row
    | none => []

/-! ## core/model_manager.py — the `generate` adapter -/

/-- Python `str.strip()` whitespace set. -/
def isPySpace (c : Char) : Bool :=
  c = ' ' || c = '\t' || c = '\n' || c = '\r' || c = '\x0b' || c = '\x0c'

/-- Python `s.strip()`: leading and trailing whitespace removed. -/
def pyStrip (s : String) : String :=
  ⟨((s.data.dropWhile isPySpace).reverse.dropWhile isPySpace).reverse⟩

/-- Python `s.rstrip()`: trailing whitespace only (used to state the spec's
"trailing whitespace trimmed" reading). -/
def pyRStrip (s : String) : String :=
  ⟨(s.data.reverse.dropWhile isPySpace).reverse⟩

/-- Python truthiness filter on an optional string: `some ""` is falsy. -/
def truthyS : Option String → Option String
  | some s => if s = "" then none else some s
  | none => none

/-- The dict `_post_json` hands back: a `response` field on HTTP 200 with a
response key, else `error`/`text` debug fields. -/
structure PostData where
  response : Option String
  error : Option String
  text : Option String
  deriving DecidableEq

/-- What one `_guarded()` call does, as seen by the retry loop: return a
dict, raise `asyncio.TimeoutError`, or raise some other exception. -/
inductive AttemptR where
  | ok (d : PostData)
  | tout
  | exc (msg : String)
  deriving DecidableEq

/-- `_one_call` applied to a returned dict: the stripped response, else
`"[ERROR] " + (data.get("error") or data.get("text") or "unknown")`. -/
def one_call (d : PostData) : String :=
  match d.response with
  | some r => pyStrip r
  | none =>
    "[ERROR] " ++ ((truthyS d.error).getD ((truthyS d.text).getD "unknown"))

/-- `last_err` after a raised attempt. -/
def lastErrOf (timeout_s : ℕ) : AttemptR → String
  | .tout => "TIMEOUT_" ++ toString timeout_s ++ "s"
  | .exc m => "ERROR " ++ m
  | .ok _ => ""

/-- The retry loop of `generate` over the remaining attempt indices:
returns `(result, calls made, backoff sleeps)`.  An attempt that returns a
dict ends the loop (even when the dict encodes an HTTP error); a raised
attempt records `last_err`, sleeps `1.5 · (attempt+1)` when retries remain,
and falls through to `"[" + last_err + "]"` after the last attempt. -/
def genGo (oracle : ℕ → AttemptR) (timeout_s : ℕ) (maxRetries : ℕ) :
    List ℕ → String → String × ℕ × List ℚ
  | [], lastErr => ("[" ++ lastErr ++ "]", 0, [])
  | i :: rest, _ =>
    match oracle i with
    | .ok d => (one_call d, 1, [])
    | r =>
      let res := genGo oracle timeout_s maxRetries rest (lastErrOf timeout_s r)
      (res.1, res.2.1 + 1,
        if i < maxRetries then (3/2 * ((i : ℚ) + 1)) :: res.2.2 else res.2.2)

/-- `generate(model, prompt, ..., timeout_s, max_retries)` with the I/O
behaviour of attempt `i` given by `oracle i`. -/
def generateModel (oracle : ℕ → AttemptR) (timeout_s : ℕ) (maxRetries : ℕ) :
    String × ℕ × List ℚ :=
  genGo oracle timeout_s maxRetries (List.range (maxRetries + 1)) ""

/-! ## core/consensus.py — the vote pipeline -/

structure Member where
  role : String
  model : String
  deriving DecidableEq

structure VoteR where
  role : String
  model : String
  answer : String
  success : Bool
  deriving DecidableEq

/-- The vote record `ask` builds from the adapter's text:
`success = not text.startswith("[ERROR")`. -/
def askVote (role model answer : String) : VoteR :=
  ⟨role, model, answer, !(startsWithB answer "[ERROR")⟩

/-- The per-mode configuration `_load_mode_cfg` extracts. -/
structure ModeCfg where
  committee : List Member
  soft : ℚ
  hard : ℚ
  grace : ℚ
  require_heavy : Bool
  deriving DecidableEq

/-- `have_heavy(rs)`: some committee member that `_is_heavy` classifies
heavy has a successful vote for its model. -/
def haveHeavy (committee : List Member) (rs : List VoteR) : Bool :=
  committee.any (fun m =>
    _is_heavy m.model && rs.any (fun r => r.success && r.model == m.model))

/-- The deadline state machine's collected results: the soft-phase batch,
extended by the grace batch only when `require_heavy` holds and no heavy
success arrived yet, then by the hard batch under the same recheck. -/
def collectResults (cfg : ModeCfg) (softB graceB hardB : List VoteR) :
    List VoteR :=
  let r1 := softB
  let r2 :=
    if cfg.require_heavy = true ∧ haveHeavy cfg.committee r1 = false
    then r1 ++ graceB else r1
  if cfg.require_heavy = true ∧ haveHeavy cfg.committee r2 = false
  then r2 ++ hardB else r2

/-- The outcome dict `vote` returns; `cache_hit = none` models the absence
of the key (the cached copy is serialized before `cache_hit` is set). -/
structure Outcome where
  status : String
  final_answer : String
  votes : List VoteR
  confidence : ℚ
  elapsed_s : ℚ
  mode : String
  cache_hit : Option Bool
  deriving DecidableEq

/-- Python `round(q, 2)` on the exact rationals that arise here. -/
def round2 (q : ℚ) : ℚ :=
  ((round (q * 100) : ℤ) : ℚ) / 100

/-- `[r for r in results if r.get("success")]`. -/
def validOf (rs : List VoteR) : List VoteR :=
  rs.filter (fun r => r.success)

/-- `CACHE_TTL = int(os.getenv("CACHE_TTL_SECONDS", "3600"))` (default). -/
def CACHE_TTL : ℕ := 3600

/-- `cache.set(key, value, ttl)`: stores with `ttl or CACHE_TTL` seconds. -/
def cacheSet (c : String → Option (Outcome × ℕ)) (key : String) (v : Outcome)
    (ttl : Option ℕ) : String → Option (Outcome × ℕ) :=
  fun k =>
    if k = key then
      some (v,
        match ttl with
        | some t => if t = 0 then CACHE_TTL else t
        | none => CACHE_TTL)
    else c k

/-- The decision core of `vote`, after the nondeterministic parts are fixed:
`cache` is the exact-key cache state, `ck` the computed key, the three
batches are the task results arriving in each deadline phase, `synth` the
conductor's output, `elapsed` the measured time.  Returns the outcome and
the new cache state. -/
def voteModel (cache : String → Option (Outcome × ℕ)) (ck : String)
    (cfg : ModeCfg) (mode : String) (softB graceB hardB : List VoteR)
    (synth : String) (elapsed : ℚ) :
    Outcome × (String → Option (Outcome × ℕ)) :=
  match cache ck with
  | some (c, _) => ({c with cache_hit := some true}, cache)
  | none =>
    let results := collectResults cfg softB graceB hardB
    if cfg.require_heavy = true ∧ haveHeavy cfg.committee results = false then
      let out : Outcome :=
        ⟨"timeout", "Mode précision: 32B indisponible.", results, 0, elapsed,
          mode, none⟩
      ({out with cache_hit := some false}, cacheSet cache ck out none)
    else
      let valid := validOf results
      if valid.length = 1 ∧ cfg.committee.length = 1 then
        let out : Outcome :=
          ⟨"ok", (valid.headD ⟨"", "", "", false⟩).answer, results, 9/10,
            elapsed, mode, none⟩
        ({out with cache_hit := some false}, cacheSet cache ck out none)
      else
        let base : ℚ :=
          if valid.any (fun r => _is_heavy r.model) then 7/10 else 55/100
        let conf : ℚ := min (95/100) (base + 15/100)
        let out : Outcome :=
          ⟨"ok", synth, results, round2 conf, elapsed, mode, none⟩
        ({out with cache_hit := some false}, cacheSet cache ck out none)

/-! ## Concrete fixtures for witnesses -/

/-- An empty exact-key cache. -/
def emptyCache : String → Option (Outcome × ℕ) := fun _ => none

/-- A precision-style mode: one heavy member, `require_heavy = true`. -/
def cfgPrecision : ModeCfg := ⟨[⟨"r", "qwen32b"⟩], 8, 30, 6, true⟩

/-- A failed vote from the heavy member. -/
def failedHeavyVote : VoteR := ⟨"r", "qwen32b", "[ERROR] x", false⟩

/-- A two-member mode without the heavy requirement. -/
def cfgDuo : ModeCfg := ⟨[⟨"a", "m1"⟩, ⟨"b", "m2"⟩], 8, 30, 6, false⟩

/-- Two successful non-heavy votes. -/
def duoVotes : List VoteR :=
  [⟨"a", "m1", "x", true⟩, ⟨"b", "m2", "y", true⟩]

/-- A precision-style mode whose only member is a 70b model: heavy for the
Heavy-Gate hint set, but not for `consensus._is_heavy`. -/
def cfg70 : ModeCfg := ⟨[⟨"r", "llama-70b"⟩], 8, 30, 6, true⟩

/-- A successful vote from the 70b member. -/
def heavy70Vote : VoteR := ⟨"r", "llama-70b", "ok", true⟩

/-- A two-member mode whose first member is a 70b model. -/
def cfg70Duo : ModeCfg :=
  ⟨[⟨"a", "llama-70b"⟩, ⟨"b", "m2"⟩], 8, 30, 6, false⟩

/-- Two successful votes, one from the 70b member. -/
def votes70 : List VoteR :=
  [⟨"a", "llama-70b", "x", true⟩, ⟨"b", "m2", "y", true⟩]

end HubNexus

namespace HubNexus

/-! # Theorems -/

-- Batteries seals the `Rat` arithmetic operations; reopen them so that the
-- kernel can evaluate the embedding on concrete inputs.
attribute [local semireducible] Rat.add Rat.mul Rat.inv Rat.sub

theorem startsList_nil_true (l : List Char) : startsList [] l = true := by
  cases l <;> rfl

/-- `containsChars` characterised by drops: the needle occurs iff it is an
initial segment of some suffix. -/
theorem containsChars_iff_drop (n h : List Char) :
    containsChars n h = true ↔ ∃ i, startsList n (h.drop i) = true := by
  induction h with
  | nil =>
    simp only [containsChars, List.drop_nil]
    exact ⟨fun hn => ⟨0, hn⟩, fun ⟨_, hi⟩ => hi⟩
  | cons b bs ih =>
    simp only [containsChars, Bool.or_eq_true, ih]
    constructor
    · rintro (hp | ⟨i, hi⟩)
      · exact ⟨0, hp⟩
      · exact ⟨i + 1, hi⟩
    · rintro ⟨i, hi⟩
      cases i with
      | zero => exact Or.inl hi
      | succ j => exact Or.inr ⟨j, hi⟩

theorem startsList_cons_elim {a : Char} {as l : List Char}
    (h : startsList (a :: as) l = true) :
    ∃ l', l = a :: l' ∧ startsList as l' = true := by
  cases l with
  | nil => simp [startsList] at h
  | cons b bs =>
    simp only [startsList, Bool.and_eq_true, beq_iff_eq] at h
    exact ⟨bs, by rw [h.1], h.2⟩

/-- A `"qwen32b"` occurrence contains a `"32b"` occurrence. -/
theorem contains_qwen32b_imp_32b (l : List Char)
    (h : containsChars ['q', 'w', 'e', 'n', '3', '2', 'b'] l = true) :
    containsChars ['3', '2', 'b'] l = true := by
  rw [containsChars_iff_drop] at h ⊢
  obtain ⟨i, hi⟩ := h
  obtain ⟨l1, e1, h1⟩ := startsList_cons_elim hi
  obtain ⟨l2, e2, h2⟩ := startsList_cons_elim h1
  obtain ⟨l3, e3, h3⟩ := startsList_cons_elim h2
  obtain ⟨l4, e4, h4⟩ := startsList_cons_elim h3
  refine ⟨i + 4, ?_⟩
  rw [← List.drop_drop, e1, e2, e3, e4]
  simpa [List.drop] using h4

/-! ## Fusion accumulation lemmas -/

theorem getScore_addScore (sc : List (String × ℚ)) (key id : String) (q : ℚ) :
    getScore (addScore sc key q) id
      = getScore sc id + (if key = id then q else 0) := by
  induction sc with
  | nil =>
    simp only [addScore, getScore, zero_add]
  | cons p rest ih =>
    obtain ⟨k, v⟩ := p
    by_cases hk : k = key
    · subst hk
      by_cases hi : k = id
      · subst hi
        simp [addScore, getScore]
      · simp [addScore, getScore, hi]
    · by_cases hi : k = id
      · subst hi
        have hki : ¬(key = k) := fun he => hk he.symm
        simp [addScore, getScore, hk, hki]
      · simp [addScore, getScore, hk, hi, ih]

theorem getScore_addBucket (e : String) (w : ℚ) (kp : ℕ) (id : String)
    (ds : List Doc) : ∀ (rank : ℕ) (sc : List (String × ℚ)),
    getScore (addBucket e w kp ds rank sc) id
      = getScore sc id + contribFrom e w kp id ds rank := by
  induction ds with
  | nil =>
    intro rank sc
    simp [addBucket, contribFrom]
  | cons d ds ih =>
    intro rank sc
    simp only [addBucket, contribFrom]
    rw [ih, getScore_addScore]
    by_cases h : docKey e rank d = id
    · simp [h]
      ring
    · simp [h]

theorem getScore_fusion_foldl (weights : List (String × ℚ)) (kp : ℕ)
    (id : String) (buckets : List (String × List Doc)) :
    ∀ sc : List (String × ℚ),
    getScore
      (buckets.foldl
        (fun sc b => addBucket b.1 (weightOf weights b.1) kp b.2 1 sc) sc) id
      = getScore sc id
        + (buckets.map
            (fun b => contribFrom b.1 (weightOf weights b.1) kp id b.2 1)).sum := by
  induction buckets with
  | nil =>
    intro sc
    simp
  | cons b bs ih =>
    intro sc
    simp only [List.foldl_cons, List.map_cons, List.sum_cons]
    rw [ih, getScore_addBucket]
    ring

/-- The fused score of a key is the sum over the buckets of
`w[expert] · 1/(kParam + rank)` at its occurrences. -/
theorem getScore_fusionScores (buckets : List (String × List Doc))
    (weights : List (String × ℚ)) (kp : ℕ) (id : String) :
    getScore (fusionScores buckets weights kp) id
      = (buckets.map
          (fun b => contribFrom b.1 (weightOf weights b.1) kp id b.2 1)).sum := by
  have h := getScore_fusion_foldl weights kp id buckets []
  simpa [fusionScores, getScore] using h

/-! ## Stable descending sort lemmas -/

theorem mem_insertDesc {x a : String × ℚ} :
    ∀ {l : List (String × ℚ)}, a ∈ insertDesc x l → a = x ∨ a ∈ l := by
  intro l
  induction l with
  | nil =>
    intro h
    simpa [insertDesc] using h
  | cons y ys ih =>
    intro h
    simp only [insertDesc] at h
    split at h
    · rcases List.mem_cons.1 h with h' | h'
      · exact Or.inr (List.mem_cons.2 (Or.inl h'))
      · rcases ih h' with h'' | h''
        · exact Or.inl h''
        · exact Or.inr (List.mem_cons.2 (Or.inr h''))
    · rcases List.mem_cons.1 h with h' | h'
      · exact Or.inl h'
      · exact Or.inr h'

theorem insertDesc_pairwise (x : String × ℚ) :
    ∀ {l : List (String × ℚ)},
    List.Pairwise (fun a b : String × ℚ => a.2 ≥ b.2) l →
    List.Pairwise (fun a b : String × ℚ => a.2 ≥ b.2) (insertDesc x l) := by
  intro l
  induction l with
  | nil =>
    intro _
    simp [insertDesc]
  | cons y ys ih =>
    intro h
    rcases List.pairwise_cons.1 h with ⟨hy, hys⟩
    simp only [insertDesc]
    split
    · rename_i hge
      refine List.pairwise_cons.2 ⟨?_, ih hys⟩
      intro a ha
      rcases mem_insertDesc ha with rfl | ha'
      · exact hge
      · exact hy a ha'
    · rename_i hlt
      push_neg at hlt
      refine List.pairwise_cons.2 ⟨?_, h⟩
      intro a ha
      rcases List.mem_cons.1 ha with rfl | ha'
      · exact le_of_lt hlt
      · exact le_trans (hy a ha') (le_of_lt hlt)

theorem foldl_insertDesc_pairwise (l : List (String × ℚ)) :
    ∀ acc : List (String × ℚ),
    List.Pairwise (fun a b : String × ℚ => a.2 ≥ b.2) acc →
    List.Pairwise (fun a b : String × ℚ => a.2 ≥ b.2)
      (l.foldl (fun acc x => insertDesc x acc) acc) := by
  induction l with
  | nil =>
    intro acc h
    simpa using h
  | cons x xs ih =>
    intro acc h
    simpa using ih (insertDesc x acc) (insertDesc_pairwise x h)

theorem stableSortDesc_pairwise (l : List (String × ℚ)) :
    List.Pairwise (fun a b : String × ℚ => a.2 ≥ b.2) (stableSortDesc l) :=
  foldl_insertDesc_pairwise l [] List.Pairwise.nil

theorem insertDesc_perm (x : String × ℚ) :
    ∀ l : List (String × ℚ), (insertDesc x l).Perm (x :: l) := by
  intro l
  induction l with
  | nil =>
    simp [insertDesc]
  | cons y ys ih =>
    simp only [insertDesc]
    split
    · exact ((ih.cons y).trans (List.Perm.swap x y ys))
    · exact List.Perm.refl _

theorem foldl_insertDesc_perm (l : List (String × ℚ)) :
    ∀ acc : List (String × ℚ),
    (l.foldl (fun acc x => insertDesc x acc) acc).Perm (acc ++ l) := by
  induction l with
  | nil =>
    intro acc
    simp
  | cons x xs ih =>
    intro acc
    simp only [List.foldl_cons]
    refine (ih (insertDesc x acc)).trans ?_
    refine (List.Perm.append_right xs ((insertDesc_perm x acc))).trans ?_
    exact List.perm_middle.symm

theorem stableSortDesc_perm (l : List (String × ℚ)) :
    (stableSortDesc l).Perm l := by
  simpa using foldl_insertDesc_perm l []

theorem insertDesc_of_ge (x : String × ℚ) :
    ∀ l : List (String × ℚ), (∀ a ∈ l, a.2 ≥ x.2) →
    insertDesc x l = l ++ [x] := by
  intro l
  induction l with
  | nil =>
    intro _
    simp [insertDesc]
  | cons y ys ih =>
    intro h
    simp only [insertDesc]
    rw [if_pos (h y (List.mem_cons_self y ys)),
      ih (fun a ha => h a (List.mem_cons.2 (Or.inr ha)))]
    simp

theorem foldl_insertDesc_sorted (l : List (String × ℚ)) :
    ∀ acc : List (String × ℚ),
    (∀ a ∈ acc, ∀ b ∈ l, a.2 ≥ b.2) →
    List.Pairwise (fun a b : String × ℚ => a.2 ≥ b.2) l →
    l.foldl (fun acc x => insertDesc x acc) acc = acc ++ l := by
  induction l with
  | nil =>
    intro acc _ _
    simp
  | cons x xs ih =>
    intro acc hge hp
    rcases List.pairwise_cons.1 hp with ⟨hx, hxs⟩
    simp only [List.foldl_cons]
    rw [insertDesc_of_ge x acc
        (fun a ha => hge a ha x (List.mem_cons_self x xs)),
      ih (acc ++ [x]) ?_ hxs]
    · simp
    · intro a ha b hb
      rcases List.mem_append.1 ha with ha' | ha'
      · exact hge a ha' b (List.mem_cons.2 (Or.inr hb))
      · rcases List.mem_singleton.1 ha' with rfl
        exact hx b hb

/-- Stability on already-sorted input: a descending-sorted list (ties in
first-appearance order) is returned unchanged. -/
theorem stableSortDesc_sorted_id (l : List (String × ℚ))
    (h : List.Pairwise (fun a b : String × ℚ => a.2 ≥ b.2) l) :
    stableSortDesc l = l := by
  simpa using foldl_insertDesc_sorted l [] (by simp) h

/-- String-level form of the `qwen32b ⇒ 32b` subsumption. -/
theorem strContains_qwen32b_imp (s : String)
    (h : strContains s "qwen32b" = true) : strContains s "32b" = true := by
  have h' : containsChars ['q', 'w', 'e', 'n', '3', '2', 'b'] s.toList = true := h
  exact contains_qwen32b_imp_32b s.toList h'

/-! ## Claim C3 -/

/-- C3 counterexample: the two heavy classifications disagree, so no single
classification governs both the Heavy-Gate and the consensus heavy-success
test: `heavy_gate.is_heavy_model` accepts `llama-70b` while
`consensus._is_heavy` rejects it. -/
theorem heavy_classification_divergence :
    is_heavy_model "llama-70b" = true ∧ _is_heavy "llama-70b" = false := by
  constructor
  · decide
  · decide

/-- C3 (amended): `heavy_gate.is_heavy_model` classifies a model heavy iff
its lowercased name contains one of `32b`, `70b`, `72b`, `mixtral-8x7b`
(the `qwen32b` hint is subsumed by `32b`); the consensus engine, however,
uses its own `_is_heavy`, which holds iff the lowercased model id contains
`32b` — the two classifications differ, e.g. on 70b models. -/
theorem heavy_classification_characterized :
    (∀ name : String, is_heavy_model name = true ↔
      (strContains (lowerS name) "32b" = true
        ∨ strContains (lowerS name) "70b" = true
        ∨ strContains (lowerS name) "72b" = true
        ∨ strContains (lowerS name) "mixtral-8x7b" = true))
    ∧ (∀ m : String, _is_heavy m = true ↔ strContains (lowerS m) "32b" = true)
    ∧ (is_heavy_model "llama-70b" = true ∧ _is_heavy "llama-70b" = false) := by
  refine ⟨?_, ?_, by constructor <;> decide⟩
  · intro name
    simp only [is_heavy_model, HEAVY_HINTS, List.any_cons, List.any_nil,
      Bool.or_eq_true, Bool.or_false]
    constructor
    · rintro (h | h | h | h | h)
      · exact Or.inl h
      · exact Or.inr (Or.inl h)
      · exact Or.inr (Or.inr (Or.inl h))
      · exact Or.inl (strContains_qwen32b_imp _ h)
      · exact Or.inr (Or.inr (Or.inr h))
    · rintro (h | h | h | h)
      · exact Or.inl h
      · exact Or.inr (Or.inl h)
      · exact Or.inr (Or.inr (Or.inl h))
      · exact Or.inr (Or.inr (Or.inr (Or.inr h)))
  · intro m
    simp only [_is_heavy, Bool.or_eq_true]
    constructor
    · rintro (h | h)
      · exact h
      · exact strContains_qwen32b_imp _ h
    · exact Or.inl

/-! ## Claim C6 -/

/-- C6 counterexample: `_reciprocal_rank_fusion` does not take the doc-id
from `id`, else `doc-id`, else `text` — a doc without `id` gets the
synthetic key `{expert}_{rank}`, so the same `doc_id` seen by two experts
yields two separate entries instead of one merged doc keyed `"X"`. -/
theorem rrf_claimed_docid_chain_fails :
    fusionRanking
        [("e1", [⟨none, some "X", some "t"⟩]), ("e2", [⟨none, some "X", some "t"⟩])]
        [("e1", 1/2), ("e2", 1/2)] 60 = ["e1_1", "e2_1"]
    ∧ specDocKey ⟨none, some "X", some "t"⟩ = some "X"
    ∧ (["e1_1", "e2_1"] : List String) ≠ ["X"] := by
  refine ⟨by decide, by decide, by decide⟩

/-- C6 (amended): weighted RRF gives each doc key the score
`Σ w[expert] · 1/(k + rank)` over its occurrences; the key is taken from
`id` when present else the synthetic `{expert}_{rank}` (the
`id`/`doc-id`/`text` chain belongs to the unweighted `rrf_merge`); output
is sorted by descending score, a sorted input being left unchanged (ties
keep first-appearance order); on the golden buckets
`{lex:[d1,d2,d3], sem:[d3,d1,d4]}` with weights 0.5/0.5 and k=60 the
output is `[d1, d3, d2, d4]` with the exact scores. -/
theorem rrf_weighted_fusion_characterized :
    (∀ (buckets : List (String × List Doc)) (weights : List (String × ℚ))
        (kp : ℕ) (key : String),
      getScore (fusionScores buckets weights kp) key
        = (buckets.map
            (fun b => contribFrom b.1 (weightOf weights b.1) kp key b.2 1)).sum)
    ∧ (∀ (buckets : List (String × List Doc)) (weights : List (String × ℚ))
        (kp : ℕ),
      List.Pairwise (fun a b : String × ℚ => a.2 ≥ b.2)
          (_reciprocal_rank_fusion buckets weights kp)
        ∧ (_reciprocal_rank_fusion buckets weights kp).Perm
            (fusionScores buckets weights kp))
    ∧ (∀ l : List (String × ℚ),
        List.Pairwise (fun a b : String × ℚ => a.2 ≥ b.2) l →
        stableSortDesc l = l)
    ∧ _reciprocal_rank_fusion goldenBuckets goldenWeights 60
        = [("d1", 123/7564), ("d3", 62/3843), ("d2", 1/124), ("d4", 1/126)] := by
  refine ⟨getScore_fusionScores, ?_, stableSortDesc_sorted_id, by decide⟩
  intro buckets weights kp
  exact ⟨stableSortDesc_pairwise _, stableSortDesc_perm _⟩

/-- Witness for the hypothesis-bearing conjunct of
`rrf_weighted_fusion_characterized`: a concrete sorted list is fixed. -/
theorem rrf_weighted_fusion_characterized_witness :
    List.Pairwise (fun a b : String × ℚ => a.2 ≥ b.2) [("a", (5 : ℚ)), ("b", 3)]
    ∧ stableSortDesc [("a", (5 : ℚ)), ("b", 3)] = [("a", (5 : ℚ)), ("b", 3)] :=
  ⟨by decide, rrf_weighted_fusion_characterized.2.2.1 _ (by decide)⟩

/-! ## Claim C7 -/

/-- C7 counterexample: permuting the insertion order of the expert→bucket
mapping changes the ranking when scores tie — the code breaks ties by the
mapping's own insertion order, not a canonical expert order. -/
theorem rrf_insertion_order_changes_ties :
    fusionRanking [("a", [docOfId "x"]), ("b", [docOfId "y"])]
        [("a", 1/2), ("b", 1/2)] 60 = ["x", "y"]
    ∧ fusionRanking [("b", [docOfId "y"]), ("a", [docOfId "x"])]
        [("a", 1/2), ("b", 1/2)] 60 = ["y", "x"]
    ∧ ([("a", [docOfId "x"]), ("b", [docOfId "y"])] :
        List (String × List Doc)).Perm
        [("b", [docOfId "y"]), ("a", [docOfId "x"])]
    ∧ (["x", "y"] : List String) ≠ ["y", "x"] := by
  refine ⟨by decide, by decide, List.Perm.swap _ _ _, by decide⟩

/-- C7 (amended): permuting the mapping's insertion order preserves every
doc key's fused score (so the ranking is unchanged whenever no two fused
scores tie); a tie's order follows insertion order, which a permutation may
change. -/
theorem rrf_score_perm_invariant (b1 b2 : List (String × List Doc))
    (weights : List (String × ℚ)) (kp : ℕ) (key : String)
    (hp : b1.Perm b2) :
    getScore (fusionScores b1 weights kp) key
      = getScore (fusionScores b2 weights kp) key := by
  rw [getScore_fusionScores, getScore_fusionScores]
  exact List.Perm.sum_eq (hp.map _)

/-- Witness for `rrf_score_perm_invariant` at a concrete permutation. -/
theorem rrf_score_perm_invariant_witness :
    ([("a", [docOfId "x"]), ("b", [docOfId "y"])] :
        List (String × List Doc)).Perm
        [("b", [docOfId "y"]), ("a", [docOfId "x"])]
    ∧ getScore (fusionScores [("a", [docOfId "x"]), ("b", [docOfId "y"])]
        [("a", 1/2), ("b", 1/2)] 60) "x"
      = getScore (fusionScores [("b", [docOfId "y"]), ("a", [docOfId "x"])]
        [("a", 1/2), ("b", 1/2)] 60) "x" :=
  ⟨List.Perm.swap _ _ _,
    rrf_score_perm_invariant _ _ _ _ _ (List.Perm.swap _ _ _)⟩

/-! ## Claim C10 -/

/-- C10: an expert tag absent from the weights dict contributes with the
default weight 0.1 (`weights.get(expert, 0.1)`), not 0; fusing a non-empty
bucket with an empty weights dict hence yields a nonzero score and a
nonempty ranking. -/
theorem rrf_default_weight :
    (∀ (weights : List (String × ℚ)) (e : String),
      (∀ p ∈ weights, p.1 ≠ e) → weightOf weights e = 1/10)
    ∧ _reciprocal_rank_fusion [("lexical", [docOfId "d"])] [] 60
        = [("d", 1/610)]
    ∧ ((1/610 : ℚ) ≠ 0) := by
  refine ⟨?_, by decide, by decide⟩
  intro weights e h
  induction weights with
  | nil => rfl
  | cons p rest ih =>
    obtain ⟨k, v⟩ := p
    have hk : k ≠ e := h (k, v) (List.mem_cons_self _ _)
    simp only [weightOf, if_neg hk]
    exact ih (fun p hp => h p (List.mem_cons.2 (Or.inr hp)))

/-- Witness for `rrf_default_weight` at a concrete absent tag. -/
theorem rrf_default_weight_witness :
    (∀ p ∈ ([("a", (1 : ℚ))] : List (String × ℚ)), p.1 ≠ "b")
    ∧ weightOf [("a", (1 : ℚ))] "b" = 1/10 :=
  ⟨by decide, rrf_default_weight.1 _ _ (by decide)⟩

/-! ## Min/max folding lemmas -/

theorem le_foldl_max (l : List ℚ) : ∀ a : ℚ, a ≤ l.foldl max a := by
  induction l with
  | nil => intro a; simp
  | cons x xs ih =>
    intro a
    exact le_trans (le_max_left a x) (ih (max a x))

theorem mem_le_foldl_max (l : List ℚ) :
    ∀ x ∈ l, ∀ a : ℚ, x ≤ l.foldl max a := by
  induction l with
  | nil => intro x hx; cases hx
  | cons y ys ih =>
    intro x hx a
    rcases List.mem_cons.1 hx with rfl | hx'
    · exact le_trans (le_max_right a x) (le_foldl_max ys (max a x))
    · exact ih x hx' (max a y)

theorem foldl_min_le (l : List ℚ) : ∀ a : ℚ, l.foldl min a ≤ a := by
  induction l with
  | nil => intro a; simp
  | cons x xs ih =>
    intro a
    exact le_trans (ih (min a x)) (min_le_left a x)

theorem foldl_min_le_mem (l : List ℚ) :
    ∀ x ∈ l, ∀ a : ℚ, l.foldl min a ≤ x := by
  induction l with
  | nil => intro x hx; cases hx
  | cons y ys ih =>
    intro x hx a
    rcases List.mem_cons.1 hx with rfl | hx'
    · exact le_trans (foldl_min_le ys (min a x)) (min_le_right a x)
    · exact ih x hx' (min a y)

theorem listMin_le {x : ℚ} {l : List ℚ} (h : x ∈ l) : listMin l ≤ x := by
  cases l with
  | nil => cases h
  | cons y ys =>
    rcases List.mem_cons.1 h with rfl | h'
    · exact foldl_min_le ys x
    · exact foldl_min_le_mem ys x h' y

theorem le_listMax {x : ℚ} {l : List ℚ} (h : x ∈ l) : x ≤ listMax l := by
  cases l with
  | nil => cases h
  | cons y ys =>
    rcases List.mem_cons.1 h with rfl | h'
    · exact le_foldl_max ys x
    · exact mem_le_foldl_max ys x h' y

/-! ## Claim C8 -/

/-- C8 counterexample: `core/memory/memory_fusion.normalize_scores` is not
min-max normalization — equal scores normalize to 1.0 (not the uniform 0.5
the claim requires when `max − min < 1e-9`), and negative scores land
outside `[0,1]`. -/
theorem normalize_scores_not_minmax :
    normalize_scores [5, 5] = [1, 1]
    ∧ listMax [5, 5] - listMin [5, 5] < 1/1000000000
    ∧ (([1, 1] : List ℚ) ≠ [1/2, 1/2])
    ∧ normalize_scores [-1, -2] = [1, 2]
    ∧ ¬((2 : ℚ) ≤ 1) := by
  refine ⟨by decide, by decide, by decide, by decide, by decide⟩

/-- C8 (amended): the devB `_minmax` does satisfy the claim — every
normalized score of a non-empty bucket lies in [0,1], and when
`max − min < 1e-9` every doc gets the uniform 0.5; the `core/memory`
`normalize_scores`, however, merely divides by the max score. -/
theorem minmax_bucket_normalization (xs : List ℚ) (hne : xs ≠ []) :
    (∀ y ∈ _minmax xs, 0 ≤ y ∧ y ≤ 1)
    ∧ (listMax xs - listMin xs < 1/1000000000 →
        _minmax xs = xs.map (fun _ => 1/2)) := by
  constructor
  · intro y hy
    simp only [_minmax, if_neg hne] at hy
    by_cases hsm : listMax xs - listMin xs < 1/1000000000
    · rw [if_pos hsm] at hy
      rcases List.mem_map.1 hy with ⟨x, _, rfl⟩
      norm_num
    · rw [if_neg hsm] at hy
      push_neg at hsm
      have hpos : (0 : ℚ) < listMax xs - listMin xs :=
        lt_of_lt_of_le (by norm_num) hsm
      rcases List.mem_map.1 hy with ⟨x, hx, rfl⟩
      constructor
      · exact div_nonneg (sub_nonneg.2 (listMin_le hx)) (le_of_lt hpos)
      · rw [div_le_one hpos]
        exact sub_le_sub_right (le_listMax hx) _
  · intro hsm
    simp only [_minmax, if_neg hne]
    rw [if_pos hsm]

/-- Witness for `minmax_bucket_normalization` at a tied concrete bucket. -/
theorem minmax_bucket_normalization_witness :
    (([5, 5] : List ℚ) ≠ [])
    ∧ _minmax [5, 5] = List.map (fun _ => 1/2) [5, 5] :=
  ⟨by decide, (minmax_bucket_normalization [5, 5] (by decide)).2 (by decide)⟩

/-! ## Claim C5 -/

/-- C5 counterexample: a hard timeout IS retried (the first attempt times
out, a backoff of 1.5s is slept, and the second attempt is made), and
`.strip()` removes leading whitespace too, so the returned text is not
merely the trailing-trimmed response. -/
theorem generate_timeout_retried :
    generateModel (fun n => if n = 0 then .tout
      else .ok ⟨some "ok", none, none⟩) 12 1 = ("ok", 2, [3/2])
    ∧ generateModel (fun _ => .ok ⟨some " a", none, none⟩) 12 1 = ("a", 1, [])
    ∧ pyRStrip " a" = " a"
    ∧ ("a" : String) ≠ " a" := by
  refine ⟨by decide, by decide, by decide, by decide⟩

/-- C5 (amended): with the default `max_retries=1`, `generate` never raises:
it returns the response with leading and trailing whitespace stripped or a
sentinel prefixed `[ERROR` / `[TIMEOUT_`; it makes at most two calls (one
retry), retrying any raised failure — timeouts included — with a single
1.5s backoff; an HTTP-failure dict (no raise) is returned as an `[ERROR`
sentinel without retry. -/
theorem generate_adapter_contract (oracle : ℕ → AttemptR) (t : ℕ) :
    (∀ d : PostData,
      (∃ resp, d.response = some resp ∧ one_call d = pyStrip resp)
      ∨ startsWithB (one_call d) "[ERROR" = true)
    ∧ (startsWithB (generateModel oracle t 1).1 "[ERROR" = true
       ∨ startsWithB (generateModel oracle t 1).1 "[TIMEOUT_" = true
       ∨ ∃ i, i ≤ 1 ∧ ∃ d, oracle i = .ok d
           ∧ (generateModel oracle t 1).1 = one_call d)
    ∧ (generateModel oracle t 1).2.1 ≤ 2
    ∧ ((generateModel oracle t 1).2.2 = []
       ∨ (generateModel oracle t 1).2.2 = [3/2]) := by
  refine ⟨?_, ?_, ?_, ?_⟩
  · intro d
    cases hd : d.response with
    | some resp =>
      exact Or.inl ⟨resp, rfl, by simp [one_call, hd]⟩
    | none =>
      refine Or.inr ?_
      simp only [one_call, hd]
      rfl
  · cases h0 : oracle 0 with
    | ok d0 =>
      refine Or.inr (Or.inr ⟨0, by norm_num, d0, h0, ?_⟩)
      simp [generateModel, genGo, h0]
    | tout =>
      cases h1 : oracle 1 with
      | ok d1 =>
        refine Or.inr (Or.inr ⟨1, le_refl 1, d1, h1, ?_⟩)
        simp [generateModel, genGo, h0, h1]
      | tout =>
        refine Or.inr (Or.inl ?_)
        simp only [generateModel, genGo, h0, h1]
        rfl
      | exc m1 =>
        refine Or.inl ?_
        simp only [generateModel, genGo, h0, h1]
        rfl
    | exc m0 =>
      cases h1 : oracle 1 with
      | ok d1 =>
        refine Or.inr (Or.inr ⟨1, le_refl 1, d1, h1, ?_⟩)
        simp [generateModel, genGo, h0, h1]
      | tout =>
        refine Or.inr (Or.inl ?_)
        simp only [generateModel, genGo, h0, h1]
        rfl
      | exc m1 =>
        refine Or.inl ?_
        simp only [generateModel, genGo, h0, h1]
        rfl
  · cases h0 : oracle 0 with
    | ok d0 => simp [generateModel, genGo, h0]
    | tout =>
      cases h1 : oracle 1 with
      | ok d1 => simp [generateModel, genGo, h0, h1]
      | tout => simp [generateModel, genGo, h0, h1]
      | exc m1 => simp [generateModel, genGo, h0, h1]
    | exc m0 =>
      cases h1 : oracle 1 with
      | ok d1 => simp [generateModel, genGo, h0, h1]
      | tout => simp [generateModel, genGo, h0, h1]
      | exc m1 => simp [generateModel, genGo, h0, h1]
  · cases h0 : oracle 0 with
    | ok d0 =>
      refine Or.inl ?_
      simp [generateModel, genGo, h0]
    | tout =>
      cases h1 : oracle 1 with
      | ok d1 =>
        refine Or.inr ?_
        simp [generateModel, genGo, h0, h1]
      | tout =>
        refine Or.inr ?_
        simp [generateModel, genGo, h0, h1]
      | exc m1 =>
        refine Or.inr ?_
        simp [generateModel, genGo, h0, h1]
    | exc m0 =>
      cases h1 : oracle 1 with
      | ok d1 =>
        refine Or.inr ?_
        simp [generateModel, genGo, h0, h1]
      | tout =>
        refine Or.inr ?_
        simp [generateModel, genGo, h0, h1]
      | exc m1 =>
        refine Or.inr ?_
        simp [generateModel, genGo, h0, h1]

/-! ## Claim C4 -/

/-- C4: evaluation at the failing input.  The adapter's hard-timeout path
returns the sentinel `[TIMEOUT_12s]`; `ask` then records the vote with
`success = not answer.startswith("[ERROR")`, i.e. `success = true`, even
though the sentinel carries the `[TIMEOUT_` failure prefix — only `[ERROR`
prefixes are marked failed. -/
theorem timeout_sentinel_marked_success :
    generateModel (fun _ => .tout) 12 1 = ("[TIMEOUT_12s]", 2, [3/2])
    ∧ (askVote "r" "m" "[TIMEOUT_12s]").success = true
    ∧ startsWithB "[TIMEOUT_12s]" "[TIMEOUT_" = true
    ∧ (askVote "r" "m" "[ERROR] boom").success = false := by
  refine ⟨by decide, by decide, by decide, by decide⟩

/-! ## Claim C9 -/

/-- C9: query classification is deterministic on the lowercased text with
temporal keywords taking precedence over factual, factual over conceptual,
and `default` otherwise; `run_mome` then selects exactly the fixed
`FUSION_WEIGHTS` row of the detected class. -/
theorem query_classification_weights (q : String) :
    ((∃ kw ∈ temporal_keywords, strContains (lowerS q) kw = true) →
      _detect_query_type q = "recent")
    ∧ ((∀ kw ∈ temporal_keywords, strContains (lowerS q) kw = false) →
       (∃ kw ∈ factual_keywords, strContains (lowerS q) kw = true) →
      _detect_query_type q = "factual")
    ∧ ((∀ kw ∈ temporal_keywords, strContains (lowerS q) kw = false) →
       (∀ kw ∈ factual_keywords, strContains (lowerS q) kw = false) →
       (∃ kw ∈ conceptual_keywords, strContains (lowerS q) kw = true) →
      _detect_query_type q = "conceptual")
    ∧ ((∀ kw ∈ temporal_keywords, strContains (lowerS q) kw = false) →
       (∀ kw ∈ factual_keywords, strContains (lowerS q) kw = false) →
       (∀ kw ∈ conceptual_keywords, strContains (lowerS q) kw = false) →
      _detect_query_type q = "default")
    ∧ (_detect_query_type q = "factual" → runMomeWeights q =
        [("lexical", 4/10), ("semantic", 3/10), ("temporal", 2/10), ("graph", 1/10)])
    ∧ (_detect_query_type q = "conceptual" → runMomeWeights q =
        [("semantic", 5/10), ("lexical", 2/10), ("temporal", 15/100), ("graph", 15/100)])
    ∧ (_detect_query_type q = "recent" → runMomeWeights q =
        [("temporal", 5/10), ("lexical", 25/100), ("semantic", 2/10), ("graph", 5/100)])
    ∧ (_detect_query_type q = "default" → runMomeWeights q =
        [("semantic", 35/100), ("lexical", 35/100), ("temporal", 2/10), ("graph", 1/10)]) := by
  refine ⟨?_, ?_, ?_, ?_, ?_, ?_, ?_, ?_⟩
  · intro h
    have hb : temporal_keywords.any (fun kw => strContains (lowerS q) kw) = true :=
      List.any_eq_true.2 (by simpa using h)
    simp [_detect_query_type, hb]
  · intro ht hf
    have hbt : temporal_keywords.any (fun kw => strContains (lowerS q) kw) = false := by
      simp only [List.any_eq_false]
      intro kw hkw
      simp [ht kw hkw]
    have hbf : factual_keywords.any (fun kw => strContains (lowerS q) kw) = true :=
      List.any_eq_true.2 (by simpa using hf)
    simp [_detect_query_type, hbt, hbf]
  · intro ht hf hc
    have hbt : temporal_keywords.any (fun kw => strContains (lowerS q) kw) = false := by
      simp only [List.any_eq_false]
      intro kw hkw
      simp [ht kw hkw]
    have hbf : factual_keywords.any (fun kw => strContains (lowerS q) kw) = false := by
      simp only [List.any_eq_false]
      intro kw hkw
      simp [hf kw hkw]
    have hbc : conceptual_keywords.any (fun kw => strContains (lowerS q) kw) = true :=
      List.any_eq_true.2 (by simpa using hc)
    simp [_detect_query_type, hbt, hbf, hbc]
  · intro ht hf hc
    have hbt : temporal_keywords.any (fun kw => strContains (lowerS q) kw) = false := by
      simp only [List.any_eq_false]
      intro kw hkw
      simp [ht kw hkw]
    have hbf : factual_keywords.any (fun kw => strContains (lowerS q) kw) = false := by
      simp only [List.any_eq_false]
      intro kw hkw
      simp [hf kw hkw]
    have hbc : conceptual_keywords.any (fun kw => strContains (lowerS q) kw) = false := by
      simp only [List.any_eq_false]
      intro kw hkw
      simp [hc kw hkw]
    simp [_detect_query_type, hbt, hbf, hbc]
  · intro h
    simp [runMomeWeights, h, fusionRow, FUSION_WEIGHTS]
  · intro h
    simp [runMomeWeights, h, fusionRow, FUSION_WEIGHTS]
  · intro h
    simp [runMomeWeights, h, fusionRow, FUSION_WEIGHTS]
  · intro h
    simp [runMomeWeights, h, fusionRow, FUSION_WEIGHTS]

/-- Witness for `query_classification_weights`: a query containing both a
temporal token (`2025`) and a conceptual keyword (`pourquoi`) classifies as
`recent`, and the recent weight row is selected. -/
theorem query_classification_weights_witness :
    (∃ kw ∈ temporal_keywords,
      strContains (lowerS "Pourquoi la version 2025 ?") kw = true)
    ∧ _detect_query_type "Pourquoi la version 2025 ?" = "recent"
    ∧ runMomeWeights "Pourquoi la version 2025 ?" =
        [("temporal", 5/10), ("lexical", 25/100), ("semantic", 2/10), ("graph", 5/100)] :=
  ⟨by decide,
    (query_classification_weights "Pourquoi la version 2025 ?").1 (by decide),
    (query_classification_weights "Pourquoi la version 2025 ?").2.2.2.2.2.2.1
      ((query_classification_weights "Pourquoi la version 2025 ?").1 (by decide))⟩

/-! ## Claim C1 -/

/-- C1 counterexample: a successful vote from `llama-70b` — heavy under the
hint-set classification the claim refers to — does not avert the timeout
outcome: `have_heavy` consults `consensus._is_heavy` (`32b` only), so the
vote still returns `status=timeout` although a heavy model produced a
`success=true` vote that is among the outcome's votes when the machine
closed. -/
theorem vote_timeout_despite_heavy_success :
    is_heavy_model "llama-70b" = true
    ∧ heavy70Vote.success = true
    ∧ (voteModel emptyCache "k" cfg70 "precision" [heavy70Vote] [] [] "s"
        1).1.votes = [heavy70Vote]
    ∧ (voteModel emptyCache "k" cfg70 "precision" [heavy70Vote] [] [] "s"
        1).1.status = "timeout" := by
  refine ⟨by decide, by decide, by decide, by decide⟩

/-- C1 (amended): on a cache miss, a `status=timeout` outcome of `vote`
implies the mode's `require_heavy` flag, and that no vote whose model the
consensus engine's own `_is_heavy` test (lowercased id contains `32b`)
classifies heavy was successful by the time the deadline machine closed — a
successful vote from a hint-set-heavy model such as `llama-70b` does not
count; in that case the final answer is the fixed heavy-unavailable
sentinel, confidence is 0.0, and the outcome (without the `cache_hit` key)
is written under the exact key with the normal TTL before being returned
with `cache_hit = false`. -/
theorem vote_timeout_invariant (cache : String → Option (Outcome × ℕ))
    (ck : String) (cfg : ModeCfg) (mode : String)
    (softB graceB hardB : List VoteR) (synth : String) (elapsed : ℚ)
    (hmiss : cache ck = none)
    (hcomm : ∀ r ∈ collectResults cfg softB graceB hardB,
      ∃ m ∈ cfg.committee, r.model = m.model)
    (hst : (voteModel cache ck cfg mode softB graceB hardB synth
      elapsed).1.status = "timeout") :
    cfg.require_heavy = true
    ∧ (∀ r ∈ collectResults cfg softB graceB hardB,
        r.success = true → _is_heavy r.model = false)
    ∧ (voteModel cache ck cfg mode softB graceB hardB synth
        elapsed).1.final_answer = "Mode précision: 32B indisponible."
    ∧ (voteModel cache ck cfg mode softB graceB hardB synth
        elapsed).1.confidence = 0
    ∧ (voteModel cache ck cfg mode softB graceB hardB synth
        elapsed).1.cache_hit = some false
    ∧ (voteModel cache ck cfg mode softB graceB hardB synth elapsed).2 ck
        = some
          (⟨"timeout", "Mode précision: 32B indisponible.",
            collectResults cfg softB graceB hardB, 0, elapsed, mode, none⟩,
           CACHE_TTL) := by
  simp only [voteModel, hmiss] at hst ⊢
  by_cases hc : cfg.require_heavy = true
    ∧ haveHeavy cfg.committee (collectResults cfg softB graceB hardB) = false
  · rw [if_pos hc] at hst ⊢
    refine ⟨hc.1, ?_, rfl, rfl, rfl, ?_⟩
    · intro r hr hs
      by_contra hh
      have hh' : _is_heavy r.model = true := by
        cases hq : _is_heavy r.model with
        | true => rfl
        | false => exact absurd hq hh
      obtain ⟨m, hm, hrm⟩ := hcomm r hr
      have hany := List.any_eq_false.1 hc.2 m hm
      rw [Bool.not_eq_true] at hany
      have hmm : _is_heavy m.model = true := by rw [← hrm]; exact hh'
      rw [hmm, Bool.true_and] at hany
      have hnr := List.any_eq_false.1 hany r hr
      exact hnr (by simp [hs, hrm])
    · simp [cacheSet]
  · rw [if_neg hc] at hst
    split at hst
    · simp at hst
    · simp at hst

/-- Witness for `vote_timeout_invariant`: a precision-mode vote whose only
(heavy) member failed within all deadline phases. -/
theorem vote_timeout_invariant_witness :
    emptyCache "k" = none
    ∧ (∀ r ∈ collectResults cfgPrecision [failedHeavyVote] [] [],
        ∃ m ∈ cfgPrecision.committee, r.model = m.model)
    ∧ (voteModel emptyCache "k" cfgPrecision "precision" [failedHeavyVote]
        [] [] "s" 1).1.status = "timeout"
    ∧ (voteModel emptyCache "k" cfgPrecision "precision" [failedHeavyVote]
        [] [] "s" 1).1.confidence = 0 :=
  ⟨rfl, by decide, by decide,
    (vote_timeout_invariant emptyCache "k" cfgPrecision "precision"
      [failedHeavyVote] [] [] "s" 1 rfl (by decide) (by decide)).2.2.2.1⟩

/-! ## Claim C2 -/

/-- C2 counterexample: with a successful vote from `llama-70b` (heavy under
the hint-set classification the claim refers to) the conductor outcome's
confidence is 0.70, not the 0.85 the claim requires when some successful
vote came from a heavy model: the base is chosen via `consensus._is_heavy`,
which rejects 70b models. -/
theorem vote_confidence_ignores_gate_heavy :
    is_heavy_model "llama-70b" = true
    ∧ (voteModel emptyCache "k" cfg70Duo "interactive" votes70 [] [] "s"
        1).1.status = "ok"
    ∧ (voteModel emptyCache "k" cfg70Duo "interactive" votes70 [] [] "s"
        1).1.votes = votes70
    ∧ (voteModel emptyCache "k" cfg70Duo "interactive" votes70 [] [] "s"
        1).1.confidence = 7/10
    ∧ ((7 : ℚ)/10 ≠ 17/20) := by
  refine ⟨by decide, by decide, by decide, by decide, by decide⟩

/-- C2 (amended): on a cache miss that reaches conductor synthesis (no
timeout branch and no single-member shortcut), the outcome is `ok` and its
confidence is `round2(min(0.95, base + 0.15))` with base 0.7 when some
successful vote's model is classified heavy by `_is_heavy` (lowercased id
contains `32b`) and 0.55 otherwise — i.e. exactly 0.85 or 0.70, never
above 0.95; a successful vote from a hint-set-heavy model such as
`llama-70b` yields 0.70. -/
theorem vote_conductor_confidence (cache : String → Option (Outcome × ℕ))
    (ck : String) (cfg : ModeCfg) (mode : String)
    (softB graceB hardB : List VoteR) (synth : String) (elapsed : ℚ)
    (hmiss : cache ck = none)
    (hok : ¬(cfg.require_heavy = true
      ∧ haveHeavy cfg.committee (collectResults cfg softB graceB hardB)
          = false))
    (hmulti : ¬((validOf (collectResults cfg softB graceB hardB)).length = 1
      ∧ cfg.committee.length = 1)) :
    (voteModel cache ck cfg mode softB graceB hardB synth elapsed).1.status
      = "ok"
    ∧ (voteModel cache ck cfg mode softB graceB hardB synth
        elapsed).1.confidence
      = round2 (min (95/100)
          ((if (validOf (collectResults cfg softB graceB hardB)).any
              (fun r => _is_heavy r.model) then (7 : ℚ)/10 else 55/100)
            + 15/100))
    ∧ (voteModel cache ck cfg mode softB graceB hardB synth
        elapsed).1.confidence
      = (if (validOf (collectResults cfg softB graceB hardB)).any
          (fun r => _is_heavy r.model) then (17 : ℚ)/20 else 7/10)
    ∧ (voteModel cache ck cfg mode softB graceB hardB synth
        elapsed).1.confidence ≤ 95/100
    ∧ (voteModel cache ck cfg mode softB graceB hardB synth
        elapsed).1.cache_hit = some false := by
  simp only [voteModel, hmiss]
  rw [if_neg hok, if_neg hmulti]
  have hconf : ∀ b : Bool,
      round2 (min (95/100) ((if b then (7 : ℚ)/10 else 55/100) + 15/100))
        = (if b then (17 : ℚ)/20 else 7/10) := by
    intro b
    cases b <;> decide
  have hle : ∀ b : Bool, (if b then (17 : ℚ)/20 else 7/10) ≤ 95/100 := by
    intro b
    cases b <;> decide
  refine ⟨rfl, rfl, hconf _, ?_, rfl⟩
  show round2 (min (95/100)
      ((if (validOf (collectResults cfg softB graceB hardB)).any
          (fun r => _is_heavy r.model) then (7 : ℚ)/10 else 55/100)
        + 15/100)) ≤ 95/100
  rw [hconf _]
  exact hle _

/-- Witness for `vote_conductor_confidence`: two successful non-heavy
votes give confidence 0.70. -/
theorem vote_conductor_confidence_witness :
    emptyCache "k" = none
    ∧ ¬(cfgDuo.require_heavy = true
      ∧ haveHeavy cfgDuo.committee (collectResults cfgDuo duoVotes [] [])
          = false)
    ∧ ¬((validOf (collectResults cfgDuo duoVotes [] [])).length = 1
      ∧ cfgDuo.committee.length = 1)
    ∧ (voteModel emptyCache "k" cfgDuo "interactive" duoVotes [] [] "s"
        1).1.confidence = (7 : ℚ)/10 :=
  ⟨rfl, by decide, by decide, by
    have h := (vote_conductor_confidence emptyCache "k" cfgDuo "interactive"
      duoVotes [] [] "s" 1 rfl (by decide) (by decide)).2.2.1
    rw [h]
    decide⟩

end HubNexus
